import Mathlib

/-!
Verification of the statistics / ML analysis core of the Poverty-dashboard
repository against its specification.

The embedding translates the Python sources
(`data/preprocess.py`, `utils/ml.py`, `Poverty_dashboard/utils/stats.py`)
into Lean.  Conventions used throughout:

* Machine floats are modelled as exact rationals (ℚ).  A missing value
  (`NaN` coming from the data) is modelled as `none : Option ℚ`.
* Where float arithmetic itself can produce non-finite values
  (division by zero producing `inf` / `-inf` / `nan` in numpy), the
  computation is carried out in the type `Fl` below, which represents a
  float as either a finite rational or one of the three non-finite values.
* `Float.sqrt` (used by `np.std`, RMSE and scipy's skewness) is modelled
  by `ratSqrt`, the exact square root on perfect-square rationals
  (and `0` elsewhere); every concrete input appearing in a theorem keeps
  the square root exact.
-/

attribute [local semireducible] Rat.add Rat.sub Rat.mul Rat.inv

namespace Pov

/-- Model of an IEEE double as produced by numpy: either a finite value
(kept exact as a rational) or one of the non-finite values. -/
inductive Fl where
  | finite : ℚ → Fl
  | inf : Fl
  | neginf : Fl
  | nan : Fl
deriving DecidableEq, Repr

/-- A float is finite when it carries a rational value. -/
def Fl.isFinite : Fl → Bool
  | .finite _ => true
  | _ => false

/-- Float addition (numpy semantics on the non-finite values:
`inf + (-inf) = nan`, `nan` absorbs everything). -/
def Fl.add : Fl → Fl → Fl
  | .finite a, .finite b => .finite (a + b)
  | .finite _, x => x
  | x, .finite _ => x
  | .nan, _ => .nan
  | _, .nan => .nan
  | .inf, .inf => .inf
  | .neginf, .neginf => .neginf
  | .inf, .neginf => .nan
  | .neginf, .inf => .nan

/-- Float absolute value. -/
def Fl.abs : Fl → Fl
  | .finite a => .finite |a|
  | .inf => .inf
  | .neginf => .inf
  | .nan => .nan

/-- Division of two finite floats, with numpy zero-division semantics:
`0/0 = nan`, `x/0 = ±inf` by the sign of `x`. -/
def fdiv (a b : ℚ) : Fl :=
  if b = 0 then
    if a = 0 then .nan else if 0 < a then .inf else .neginf
  else .finite (a / b)

/-- Division of a float by a positive finite rational (used for means). -/
def Fl.divPos : Fl → ℚ → Fl
  | .finite a, c => .finite (a / c)
  | .inf, _ => .inf
  | .neginf, _ => .neginf
  | .nan, _ => .nan

/-- Multiplication of a float by a positive finite rational. -/
def Fl.mulPos : Fl → ℚ → Fl
  | .finite a, c => .finite (a * c)
  | .inf, _ => .inf
  | .neginf, _ => .neginf
  | .nan, _ => .nan

/-- Sum of a list of floats (numpy `np.sum`, left fold). -/
def flSum (xs : List Fl) : Fl :=
  xs.foldl Fl.add (.finite 0)

/-- Mean of a list of floats (numpy `np.mean`); empty input gives `nan`
(numpy `0/0`). -/
def flMean (xs : List Fl) : Fl :=
  if xs.length = 0 then .nan else (flSum xs).divPos xs.length

/-- Integer square root (largest `k` with `k*k <= n`), by exhaustive
search so that it evaluates by kernel reduction. -/
def natSqrt (n : ℕ) : ℕ :=
  ((List.range (n + 1)).filter (fun k => decide (k * k ≤ n))).foldr max 0

/-- Exact square root of a rational: the true square root when the
argument is the square of a rational, `0` otherwise.  This models
`np.sqrt` exactly on perfect squares (the only places the development
evaluates a square root). -/
def ratSqrt (q : ℚ) : ℚ :=
  if 0 ≤ q.num ∧ (natSqrt q.num.toNat) ^ 2 = q.num.toNat
      ∧ (natSqrt q.den) ^ 2 = q.den then
    (natSqrt q.num.toNat : ℚ) / (natSqrt q.den : ℚ)
  else 0

/-- Mean of a list of rationals (`np.mean`); `0` on the empty list (all
uses are guarded by a non-emptiness check, as in the source). -/
def meanQ (xs : List ℚ) : ℚ := xs.sum / xs.length

/-- The k-th central moment `scipy.stats.moment`: mean of the k-th powers
of the deviations from the mean. -/
def momentQ (xs : List ℚ) (k : ℕ) : ℚ :=
  ((xs.map (fun x => (x - meanQ xs) ^ k)).sum) / xs.length

/-- Minimum of a list (`np.min`); total with default on empty input. -/
def minQ (xs : List ℚ) : ℚ := xs.foldl min (xs.headD 0)

/-- Maximum of a list (`np.max`). -/
def maxQ (xs : List ℚ) : ℚ := xs.foldl max (xs.headD 0)

/-- Insertion step of the ascending insertion sort below. -/
def insertSorted (x : ℚ) : List ℚ → List ℚ
  | [] => [x]
  | y :: t => if x ≤ y then x :: y :: t else y :: insertSorted x t

/-- Insertion sort in ascending order (the sorting step of
`np.percentile`; structurally recursive so that concrete quantiles
evaluate by kernel reduction). -/
def sortQ (xs : List ℚ) : List ℚ := xs.foldr insertSorted []

/-- Model of `np.percentile(xs, 100*q)` / `pandas.Series.quantile(q)` with
the default linear interpolation: on the sorted data of length `m`, the
value at fractional position `q*(m-1)`. -/
def quantileQ (xs : List ℚ) (q : ℚ) : ℚ :=
  let s := sortQ xs
  let m := s.length
  if m = 0 then 0 else
    let h : ℚ := q * (m - 1)
    let i : ℕ := h.floor.toNat
    let lo := s.getD i 0
    let hi := s.getD (i + 1) lo
    lo + (h - i) * (hi - lo)

/-- The fixed-shape record returned by
`stats.get_summary_statistics` when the input is non-empty. -/
structure SummaryStats where
  count : ℕ
  mean : ℚ
  median : ℚ
  std : ℚ
  variance : ℚ
  min : ℚ
  max : ℚ
  range : ℚ
  q25 : ℚ
  q50 : ℚ
  q75 : ℚ
  iqr : ℚ
  skewness : Fl
  kurtosis : Fl
deriving DecidableEq, Repr

/-- Model of `scipy.stats.skew` (biased Fisher-Pearson estimator
`m3 / m2**1.5`): since scipy 1.9 a zero second moment (constant data)
yields `NaN` (`np.where(zero, np.nan, m3 / m2**1.5)`), so the value is
carried in `Fl`.  The exact zero test stands in for scipy's
resolution-sized threshold; the fractional power is `m2 * sqrt m2`,
rendered with `ratSqrt`. -/
def skewQ (xs : List ℚ) : Fl :=
  if momentQ xs 2 = 0 then .nan
  else .finite (momentQ xs 3 / (momentQ xs 2 * ratSqrt (momentQ xs 2)))

/-- Model of `scipy.stats.kurtosis` (Fisher, biased: `m4 / m2**2 - 3`):
since scipy 1.9 a zero second moment yields `NaN`
(`np.where(zero, np.nan, m4 / m2**2.0)`, then `NaN - 3 = NaN`). -/
def kurtosisQ (xs : List ℚ) : Fl :=
  if momentQ xs 2 = 0 then .nan
  else .finite (momentQ xs 4 / momentQ xs 2 ^ 2 - 3)

/-- Embedding of `stats.get_summary_statistics`: flatten, drop NaN, return `{}`
(modelled `none`) when nothing remains, otherwise the full record.
`np.std` is the square root of the population variance; `np.median`
coincides with the linear 0.5-quantile. -/
def get_summary_statistics (data : List (Option ℚ)) : Option SummaryStats :=
  let xs := data.filterMap id
  if xs = [] then none
  else some {
    count := xs.length
    mean := meanQ xs
    median := quantileQ xs (1/2)
    std := ratSqrt (momentQ xs 2)
    variance := momentQ xs 2
    min := minQ xs
    max := maxQ xs
    range := maxQ xs - minQ xs
    q25 := quantileQ xs (1/4)
    q50 := quantileQ xs (1/2)
    q75 := quantileQ xs (3/4)
    iqr := quantileQ xs (3/4) - quantileQ xs (1/4)
    skewness := skewQ xs
    kurtosis := kurtosisQ xs }

/-- A cell of a dataframe: a numeric value or a string, either possibly
missing (`none` models `NaN`). -/
inductive Cell where
  | qc : Option ℚ → Cell
  | sc : Option String → Cell
deriving DecidableEq, Repr

/-- Dtype of a dataframe column: numeric (`select_dtypes(include=[np.number])`)
or object. -/
inductive DType where
  | num : DType
  | obj : DType
deriving DecidableEq, Repr

/-- A pandas dataframe: a schema (column names with dtypes) and a list of
rows, each row a list of cells aligned with the schema. -/
structure DataFrame where
  schema : List (String × DType)
  rows : List (List Cell)
deriving DecidableEq, Repr

/-- Pandas `df.empty`: true when there are no rows or no columns. -/
def DataFrame.isEmpty (df : DataFrame) : Bool :=
  df.rows.isEmpty || df.schema.isEmpty

/-- Column names, in order (`df.columns`). -/
def DataFrame.colNames (df : DataFrame) : List String :=
  df.schema.map Prod.fst

/-- Membership test `name in df.columns`. -/
def DataFrame.hasCol (df : DataFrame) (name : String) : Bool :=
  df.colNames.contains name

/-- Cell of a row at a column position (missing positions read as a
missing numeric cell). -/
def getCell (r : List Cell) (j : ℕ) : Cell :=
  r.getD j (.qc none)

/-- Numeric view of a cell: the rational for a present numeric cell,
`none` (NaN) otherwise. -/
def cellQ : Cell → Option ℚ
  | .qc o => o
  | .sc _ => none

/-- Numeric value of row `r` at column `j`. -/
def getQ (r : List Cell) (j : ℕ) : Option ℚ :=
  cellQ (getCell r j)

/-- Column `j` of the dataframe as a numeric series. -/
def DataFrame.colQ (df : DataFrame) (j : ℕ) : List (Option ℚ) :=
  df.rows.map (fun r => getQ r j)

/-- Names of the numeric columns, in order
(`df.select_dtypes(include=[np.number]).columns`). -/
def numericNames (df : DataFrame) : List String :=
  (df.schema.filter (fun c => c.2 == DType.num)).map Prod.fst

/-- Helper for `numericCols`: walk the schema keeping a running column
index. -/
def numericColsFrom (df : DataFrame) :
    List (String × DType) → ℕ → List (String × List (Option ℚ))
  | [], _ => []
  | (nm, DType.num) :: rest, j => (nm, df.colQ j) :: numericColsFrom df rest (j + 1)
  | (_, DType.obj) :: rest, j => numericColsFrom df rest (j + 1)

/-- The numeric columns of the dataframe with their names
(`df.select_dtypes(include=[np.number])`). -/
def numericCols (df : DataFrame) : List (String × List (Option ℚ)) :=
  numericColsFrom df df.schema 0

/-- Pairwise-complete observations of two series: the rows where both
values are present (pandas `corr` excludes NaN pairwise). -/
def pairObs (a b : List (Option ℚ)) : List (ℚ × ℚ) :=
  (a.zip b).filterMap (fun p =>
    match p.1, p.2 with
    | some x, some y => some (x, y)
    | _, _ => none)

/-- Centered cross sum `Σ (x - mean x)(y - mean y)` over a list of
observation pairs. -/
def cSum (pts : List (ℚ × ℚ)) : ℚ :=
  let mx := meanQ (pts.map Prod.fst)
  let my := meanQ (pts.map Prod.snd)
  (pts.map (fun p => (p.1 - mx) * (p.2 - my))).sum

/-- Centered sum of squares of the first components. -/
def cXX (pts : List (ℚ × ℚ)) : ℚ := cSum (pts.map (fun p => (p.1, p.1)))

/-- Centered sum of squares of the second components. -/
def cYY (pts : List (ℚ × ℚ)) : ℚ := cSum (pts.map (fun p => (p.2, p.2)))

/-- Numerator of the Pearson correlation of two series over their
pairwise-complete observations. -/
def corrNum (a b : List (Option ℚ)) : ℚ := cSum (pairObs a b)

/-- Square of the denominator of the Pearson correlation: the Pearson
coefficient itself is `corrNum a b / Real.sqrt (corrDenSq a b)`, which is
irrational in general, so matrix entries are carried as the pair
(numerator, squared denominator). -/
def corrDenSq (a b : List (Option ℚ)) : ℚ := cXX (pairObs a b) * cYY (pairObs a b)

/-- A correlation matrix: row/column labels plus the square table of
entries, each entry the pair (numerator, squared denominator) of the
Pearson coefficient. -/
structure CorrMatrix where
  names : List String
  entries : List (List (ℚ × ℚ))
deriving DecidableEq, Repr

/-- Entry access with the usual out-of-range default. -/
def CorrMatrix.at (M : CorrMatrix) (i j : ℕ) : ℚ × ℚ :=
  (M.entries.getD i []).getD j (0, 0)

/-- An entry `(num, denSq)` represents the real value `num / sqrt denSq`;
that value equals `1` exactly when the numerator is positive and its
square equals the squared denominator. -/
def entryIsOne (e : ℚ × ℚ) : Prop := 0 < e.1 ∧ e.1 ^ 2 = e.2

/-- Embedding of `stats.calculate_correlation` (default `pearson`
method): empty dataframe or no numeric columns gives the empty matrix,
otherwise the pairwise Pearson matrix over the numeric columns.  The
`try/except` around the library call (returning the empty matrix on a
raised exception) has no arithmetic content here: the embedded
computation is total. -/
def calculate_correlation (df : DataFrame) : CorrMatrix :=
  if df.isEmpty then ⟨[], []⟩
  else
    let nc := numericCols df
    if nc.isEmpty then ⟨[], []⟩
    else ⟨nc.map Prod.fst,
          nc.map (fun a => nc.map (fun b =>
            (corrNum a.2 b.2, corrDenSq a.2 b.2)))⟩

/-- Non-degeneracy of a dataframe in the sense of the specification: for
every pair of numeric columns, the pairwise-complete subsample has
positive centered sums of squares on both sides (no constant or empty
pairwise subsample), so every Pearson coefficient is well defined. -/
def nonDegenerate (df : DataFrame) : Bool :=
  (numericCols df).all (fun a => (numericCols df).all (fun b =>
    decide (0 < cXX (pairObs a.2 b.2)) && decide (0 < cYY (pairObs a.2 b.2))))

/-- All-or-nothing sequencing of a row of optional values: `some` of the
values when none is missing, `none` when the row contains a NaN. -/
def allSome : List (Option ℚ) → Option (List ℚ)
  | [] => some []
  | none :: _ => none
  | some x :: rest => (allSome rest).map (fun l => x :: l)

/-- The NaN-dropping step shared by `perform_regression`, `train_model`
and `cross_validate_model`:
`mask = ~(np.isnan(X).any(axis=1) | np.isnan(y))` keeps exactly the rows
where the feature row and the target are all present. -/
def dropnaXY (X : List (List (Option ℚ))) (y : List (Option ℚ)) :
    List (List ℚ × ℚ) :=
  (X.zip y).filterMap (fun p =>
    match allSome p.1, p.2 with
    | some r, some v => some (r, v)
    | _, _ => none)

/-- Embedding of `sklearn.metrics.r2_score`:
`1 - ss_res / ss_tot`, with sklearn's zero-denominator convention
(constant truth: `1` for a perfect fit, else `0`). -/
def r2_score (y_true y_pred : List ℚ) : ℚ :=
  let ssRes := ((y_true.zip y_pred).map (fun p => (p.1 - p.2) ^ 2)).sum
  let ssTot := ((y_true.map (fun v => (v - meanQ y_true) ^ 2)).sum)
  if ssTot = 0 then (if ssRes = 0 then 1 else 0) else 1 - ssRes / ssTot

/-- Adjusted R-squared exactly as written at `stats.py:129`:
`1 - (1 - r2) * (n - 1) / (n - p - 1)` with no guard on the denominator;
a zero denominator produces a non-finite float, mapped through `Fl`. -/
def adjustedR2 (r2 : ℚ) (n p : ℕ) : Fl :=
  match fdiv ((1 - r2) * ((n : ℚ) - 1)) ((n : ℚ) - (p : ℚ) - 1) with
  | .finite q => .finite (1 - q)
  | .inf => .neginf
  | .neginf => .inf
  | .nan => .nan

/-- What a fitted `sklearn.linear_model.LinearRegression` exposes to
`perform_regression`: `coef_`, `intercept_` and the in-sample
predictions `model.predict(X)`.  The least-squares solver itself is a
library internal, so `perform_regression` is parametrised over it. -/
structure FitResult where
  coefs : List ℚ
  intercept : ℚ
  preds : List ℚ
deriving DecidableEq, Repr

/-- Result record of `stats.perform_regression` (the retained `model`
object of the non-empty branch is not part of the numeric record). -/
structure RegResult where
  coefficients : List ℚ
  intercept : ℚ
  r2 : ℚ
  adjusted_r2 : Fl
  rmse : ℚ
  mae : ℚ
deriving DecidableEq, Repr

/-- The zeroed record returned by `perform_regression` when every row is
dropped: all metrics 0, empty coefficient list. -/
def zeroedRegResult : RegResult :=
  ⟨[], 0, 0, .finite 0, 0, 0⟩

/-- Embedding of `stats.perform_regression`, parametrised by the
least-squares fitter `fit` (sklearn's `LinearRegression().fit`): drop
rows with missing values, return the zeroed record when nothing remains,
otherwise fit and report coefficients, intercept, R-squared, the
unguarded adjusted R-squared, RMSE and MAE.  `p = X.shape[1]` is the
width of a (rectangular) feature matrix, read off the first kept row. -/
def perform_regression (fit : List (List ℚ) → List ℚ → FitResult)
    (X : List (List (Option ℚ))) (y : List (Option ℚ)) : RegResult :=
  let pairs := dropnaXY X y
  if pairs.isEmpty then zeroedRegResult
  else
    let Xc := pairs.map Prod.fst
    let yc := pairs.map Prod.snd
    let fr := fit Xc yc
    let r2 := r2_score yc fr.preds
    let n := yc.length
    let p := (Xc.headD []).length
    { coefficients := fr.coefs
      intercept := fr.intercept
      r2 := r2
      adjusted_r2 := adjustedR2 r2 n p
      rmse := ratSqrt (meanQ ((yc.zip fr.preds).map (fun q => (q.1 - q.2) ^ 2)))
      mae := meanQ ((yc.zip fr.preds).map (fun q => |q.1 - q.2|)) }

/-- Metrics dict returned by `ml.evaluate_model`.  MAPE is carried in
`Fl` because its division is unguarded and can produce non-finite
floats. -/
structure Metrics where
  r2 : ℚ
  rmse : ℚ
  mae : ℚ
  mape : Fl
deriving DecidableEq, Repr

/-- Embedding of `ml.evaluate_model` (`ml.py:83-107`); in particular
`mape = np.mean(np.abs((y_true - y_pred) / y_true)) * 100` with no
treatment of zero actual values. -/
def evaluate_model (y_true y_pred : List ℚ) : Metrics :=
  { r2 := r2_score y_true y_pred
    rmse := ratSqrt (meanQ ((y_true.zip y_pred).map (fun p => (p.1 - p.2) ^ 2)))
    mae := meanQ ((y_true.zip y_pred).map (fun p => |p.1 - p.2|))
    mape := (flMean ((y_true.zip y_pred).map
      (fun p => (fdiv (p.1 - p.2) p.1).abs))).mulPos 100 }

/-- The three model kinds of `config.ML_MODELS`. -/
inductive ModelKind where
  | linear : ModelKind
  | randomForest : ModelKind
  | gradientBoosting : ModelKind
deriving DecidableEq, Repr

/-- The model-selection chain of `ml.train_model` (`ml.py:49-64`) and
`ml.cross_validate_model` (`ml.py:201-209`): any string other than the
three recognised names falls through to the final `else` and selects
linear regression. -/
def selectModel (model_type : String) : ModelKind :=
  if model_type = "Linear Regression" then .linear
  else if model_type = "Random Forest" then .randomForest
  else if model_type = "Gradient Boosting" then .gradientBoosting
  else .linear

/-- The sklearn regressors used by `train_model`, abstracted: a fitter
producing a model value of type `μ` from a chosen kind and training
data, and a predictor.  The tree ensembles and the least-squares solver
are library internals; every theorem below holds for an arbitrary
backend. -/
structure Backend (μ : Type) where
  fit : ModelKind → List (List ℚ) → List ℚ → μ
  predict : μ → List (List ℚ) → List ℚ

/-- Embedding of `ml.train_model`, parametrised by the regressor backend
and by the deterministic train/test split (`train_test_split` with the
fixed `config.ML_TEST_SIZE` and `config.ML_RANDOM_STATE` seed is a pure
function of its input rows).  Inputs are the already-selected feature
matrix `data[features].values` and target `data[target].values`.
Returns `(None, {}, empty predictions)` — modelled
`(none, none, [])` — when dropping missing rows leaves nothing. -/
def train_model {μ : Type} (B : Backend μ)
    (split : List (List ℚ × ℚ) → List (List ℚ × ℚ) × List (List ℚ × ℚ))
    (X : List (List (Option ℚ))) (y : List (Option ℚ))
    (model_type : String) : Option μ × Option Metrics × List (ℚ × ℚ) :=
  let pairs := dropnaXY X y
  if pairs.isEmpty then (none, none, [])
  else
    let tr := (split pairs).1
    let te := (split pairs).2
    let m := B.fit (selectModel model_type) (tr.map Prod.fst) (tr.map Prod.snd)
    let yp := B.predict m (te.map Prod.fst)
    (some m, some (evaluate_model (te.map Prod.snd) yp), (te.map Prod.snd).zip yp)

/-- Embedding of `ml.predict_future` (`ml.py:110-144`).  The historical
dataframe is represented by its `year` column (the only data the
function reads; years are integers per the data model), so
`historical_data.empty` becomes emptiness of that list.  The fitted
single-feature model is `some m`, applied elementwise as
`model.predict`; `np.arange(last+1, last+years_ahead+1)` enumerates
`last+1, ..., last+years_ahead`. -/
def predict_future (model : Option (ℤ → ℚ)) (years : List ℤ)
    (years_ahead : ℕ) : List (ℤ × ℚ) :=
  match model with
  | none => []
  | some m =>
    if years.isEmpty then []
    else
      let last := years.foldl max (years.headD 0)
      (List.range years_ahead).map (fun i : ℕ => (last + 1 + (i : ℤ), m (last + 1 + i)))

/-- Position of the first column with the given name (`df['name']`). -/
def DataFrame.colIdx? (df : DataFrame) (name : String) : Option ℕ :=
  df.schema.findIdx? (fun c => c.1 == name)

/-- Helper for the numeric column positions: walk the schema with a
running index. -/
def numIdxsFrom : List (String × DType) → ℕ → List ℕ
  | [], _ => []
  | (_, DType.num) :: rest, j => j :: numIdxsFrom rest (j + 1)
  | (_, DType.obj) :: rest, j => numIdxsFrom rest (j + 1)

/-- Helper for the object column positions. -/
def objIdxsFrom : List (String × DType) → ℕ → List ℕ
  | [], _ => []
  | (_, DType.obj) :: rest, j => j :: objIdxsFrom rest (j + 1)
  | (_, DType.num) :: rest, j => objIdxsFrom rest (j + 1)

/-- Positions of the numeric columns
(`df.select_dtypes(include=[np.number]).columns`). -/
def DataFrame.numIdxs (df : DataFrame) : List ℕ := numIdxsFrom df.schema 0

/-- Positions of the object columns
(`df.select_dtypes(include=['object']).columns`). -/
def DataFrame.objIdxs (df : DataFrame) : List ℕ := objIdxsFrom df.schema 0

/-- Helper for `dedupRows`: keep the rows not seen before, walking the
list with the set of rows already emitted. -/
def dedupAux : List (List Cell) → List (List Cell) → List (List Cell)
  | [], _ => []
  | r :: rest, seen =>
    if r ∈ seen then dedupAux rest seen
    else r :: dedupAux rest (r :: seen)

/-- Pandas `drop_duplicates()` (keep the first of equal rows; missing
values compare equal, as in pandas `duplicated`). -/
def dedupRows (l : List (List Cell)) : List (List Cell) := dedupAux l []

/-- Fill a missing numeric cell with the value `m` (`fillna(median)`);
present cells and string cells are untouched. -/
def fillQCell (m : ℚ) : Cell → Cell
  | .qc none => .qc (some m)
  | c => c

/-- Fill a missing string cell with the sentinel category
(`fillna('Unknown')`). -/
def fillSCell : Cell → Cell
  | .sc none => .sc (some "Unknown")
  | c => c

/-- Median of a series, pandas `Series.median()`: skips missing values,
`NaN` (here `none`) when nothing remains. -/
def medianOpt (xs : List ℚ) : Option ℚ :=
  if xs.isEmpty then none else some (quantileQ xs (1/2))

/-- Median imputation of `clean_data` for one numeric column
(`preprocess.py:32-35`): if the column has missing entries, fill them
with the column median; a median of `NaN` (all-missing column) fills
nothing. -/
def imputeNum (j : ℕ) (rows : List (List Cell)) : List (List Cell) :=
  let col := rows.map (fun r => getQ r j)
  if col.any (fun o => o.isNone) then
    match medianOpt (col.filterMap id) with
    | some mv => rows.map (fun r => r.set j (fillQCell mv (getCell r j)))
    | none => rows
  else rows

/-- Sentinel imputation of `clean_data` for one object column
(`preprocess.py:38-41`). -/
def imputeObj (j : ℕ) (rows : List (List Cell)) : List (List Cell) :=
  let col := rows.map (fun r => getCell r j)
  if col.any (fun c => c == Cell.sc none) then
    rows.map (fun r => r.set j (fillSCell (getCell r j)))
  else rows

/-- Outlier removal of `clean_data` (`preprocess.py:44-53`): when a
`value` column exists, keep the rows whose value lies in
`[Q1 - 3*IQR, Q3 + 3*IQR]`; the quantiles skip missing entries, and a
row with a missing value fails both comparisons (NaN comparisons are
false), as does every row when the quantiles themselves are `NaN`
(all-missing column). -/
def outlierStep (df : DataFrame) (rows : List (List Cell)) :
    List (List Cell) :=
  match df.colIdx? "value" with
  | none => rows
  | some j =>
    let vals := (rows.map (fun r => getQ r j)).filterMap id
    if vals.isEmpty then rows.filter (fun _ => false)
    else
      let q1 := quantileQ vals (1/4)
      let q3 := quantileQ vals (3/4)
      let lo := q1 - 3 * (q3 - q1)
      let hi := q3 + 3 * (q3 - q1)
      rows.filter (fun r =>
        match getQ r j with
        | some v => decide (lo ≤ v) && decide (v ≤ hi)
        | none => false)

/-- Embedding of `preprocess.clean_data` (`preprocess.py:11-55`):
deduplicate, impute numeric columns with their medians, impute object
columns with `'Unknown'`, then strip `value` outliers; an empty
dataframe is returned unchanged. -/
def clean_data (df : DataFrame) : DataFrame :=
  if df.isEmpty then df
  else
    let r1 := dedupRows df.rows
    let r2 := df.numIdxs.foldl (fun rs j => imputeNum j rs) r1
    let r3 := df.objIdxs.foldl (fun rs j => imputeObj j rs) r2
    ⟨df.schema, outlierStep df r3⟩

/-- Elementwise `series.isin(values)` on a cell: true only for a present
string cell whose value is in the list (missing values are never `isin`
anything). -/
def cellInStrs (c : Cell) (ss : List String) : Bool :=
  match c with
  | .sc (some v) => ss.contains v
  | _ => false

/-- Elementwise `series == value` on a cell against a string: false for
missing values (NaN compares unequal). -/
def cellEqStr (c : Cell) (s : String) : Bool :=
  match c with
  | .sc (some v) => v == s
  | _ => false

/-- The year-range step of `filter_data` (`preprocess.py:87-91`):
applied only when a range is supplied and a `year` column exists; keeps
the rows with `year_range[0] <= year <= year_range[1]` (a missing year
fails both comparisons). -/
def stepYear (df : DataFrame) (year_range : Option (ℚ × ℚ))
    (l : List (List Cell)) : List (List Cell) :=
  match year_range, df.colIdx? "year" with
  | some yr, some j =>
    l.filter (fun r =>
      match getQ r j with
      | some yv => decide (yr.1 ≤ yv) && decide (yv ≤ yr.2)
      | none => false)
  | _, _ => l

/-- A membership step of `filter_data` (states / countries /
indicators): applied only when the list is supplied, non-empty (Python
truthiness) and the column exists. -/
def stepIsin (df : DataFrame) (colName : String) (sel : Option (List String))
    (l : List (List Cell)) : List (List Cell) :=
  match sel, df.colIdx? colName with
  | some ss, some j =>
    if ss.isEmpty then l else l.filter (fun r => cellInStrs (getCell r j) ss)
  | _, _ => l

/-- The area-type step of `filter_data` (`preprocess.py:102-103`):
applied only when an area type is supplied, non-empty (Python
truthiness), different from `"All"`, and the column exists. -/
def stepArea (df : DataFrame) (area_type : Option String)
    (l : List (List Cell)) : List (List Cell) :=
  match area_type, df.colIdx? "area_type" with
  | some a, some j =>
    if a = "" ∨ a = "All" then l
    else l.filter (fun r => cellEqStr (getCell r j) a)
  | _, _ => l

/-- Embedding of `preprocess.filter_data` (`preprocess.py:58-109`): the
five optional predicates applied in sequence; an empty dataframe is
returned unchanged, and a predicate over an absent column is skipped. -/
def filter_data (df : DataFrame) (year_range : Option (ℚ × ℚ))
    (states : Option (List String)) (countries : Option (List String))
    (area_type : Option String) (indicators : Option (List String)) :
    DataFrame :=
  if df.isEmpty then df
  else
    ⟨df.schema,
     stepIsin df "indicator" indicators
       (stepArea df area_type
         (stepIsin df "country" countries
           (stepIsin df "state" states
             (stepYear df year_range df.rows))))⟩

/-! ### Supporting lemmas -/

theorem foldl_max_eq (l : List ℤ) (i : ℤ) :
    (∀ x ∈ l, x ≤ l.foldl max i) ∧ i ≤ l.foldl max i := by
  induction l generalizing i with
  | nil => simp
  | cons a t ih =>
    refine ⟨?_, ?_⟩
    · intro x hx
      rcases List.mem_cons.1 hx with h | h
      · subst h
        exact le_trans (le_max_right i x) (ih (max i x)).2
      · exact (ih (max i a)).1 x h
    · exact le_trans (le_max_left i a) (ih (max i a)).2

theorem foldl_max_mem (l : List ℤ) (i : ℤ) :
    l.foldl max i = i ∨ l.foldl max i ∈ l := by
  induction l generalizing i with
  | nil => exact Or.inl rfl
  | cons a t ih =>
    rw [List.foldl_cons]
    rcases ih (max i a) with h | h
    · rw [h]
      rcases le_total a i with hia | hia
      · exact Or.inl (max_eq_left hia)
      · exact Or.inr (by rw [max_eq_right hia]; exact List.mem_cons_self a t)
    · exact Or.inr (List.mem_cons_of_mem a h)

/-! ### C2 : summary statistics of constant data carry NaN -/

/-- C2: on the claim's own example — ten observations all equal to
`12.5` — the returned record has mean = median = 12.5 and
std = variance = IQR = 0, but its skewness and kurtosis fields are
`NaN`: `scipy.stats.skew` / `scipy.stats.kurtosis` (scipy >= 1.9, the
library generation of this repository) return `NaN` on zero-variance
input and `get_summary_statistics` stores them unguarded, so the record
is not NaN-free and skewness is not `0`, contradicting the claim and
the specification invariant. -/
theorem get_summary_statistics_constant_nan :
    get_summary_statistics (List.replicate 10 (some (25/2 : ℚ))) =
      some { count := 10, mean := 25/2, median := 25/2, std := 0,
             variance := 0, min := 25/2, max := 25/2, range := 0,
             q25 := 25/2, q50 := 25/2, q75 := 25/2, iqr := 0,
             skewness := Fl.nan, kurtosis := Fl.nan } ∧
    Fl.nan ≠ Fl.finite 0 := by
  exact ⟨by decide, by decide⟩

/-! ### C6 : empty input returns defaults -/

/-- C6: when dropping rows with missing values leaves nothing,
`perform_regression` returns the zeroed record (for every least-squares
backend) and `train_model` returns `(None, {}, empty predictions)` (for
every regressor backend and split). -/
theorem empty_input_returns_defaults :
    (∀ (fit : List (List ℚ) → List ℚ → FitResult)
        (X : List (List (Option ℚ))) (y : List (Option ℚ)),
        dropnaXY X y = [] → perform_regression fit X y = zeroedRegResult) ∧
    (∀ (μ : Type) (B : Backend μ)
        (split : List (List ℚ × ℚ) → List (List ℚ × ℚ) × List (List ℚ × ℚ))
        (X : List (List (Option ℚ))) (y : List (Option ℚ)) (mt : String),
        dropnaXY X y = [] → train_model B split X y mt = (none, none, [])) := by
  constructor
  · intro fit X y h
    simp [perform_regression, h]
  · intro μ B split X y mt h
    simp [train_model, h]

/-- Witness for C6: a one-row input whose only target value is missing. -/
theorem empty_input_returns_defaults_witness :
    perform_regression (fun _ _ => ⟨[], 0, []⟩) [[some (0 : ℚ)]] [none]
        = zeroedRegResult ∧
    train_model (μ := Unit) ⟨fun _ _ _ => (), fun _ _ => []⟩
        (fun l => (l, l)) [[some (0 : ℚ)]] [none] "Linear Regression"
        = (none, none, []) :=
  ⟨empty_input_returns_defaults.1 _ _ _ (by decide),
   empty_input_returns_defaults.2 Unit _ _ _ _ _ (by decide)⟩

/-! ### C9 : unknown model type falls back to linear regression -/

/-- C9: a `model_type` string outside the three recognised names selects
linear regression, so `train_model` returns exactly the result of the
`'Linear Regression'` call on the same inputs, for every backend and
split; nothing is raised or signalled (the function is total). -/
theorem train_model_unknown_model_type_fallback (μ : Type) (B : Backend μ)
    (split : List (List ℚ × ℚ) → List (List ℚ × ℚ) × List (List ℚ × ℚ))
    (X : List (List (Option ℚ))) (y : List (Option ℚ)) (mt : String)
    (h1 : mt ≠ "Linear Regression") (h2 : mt ≠ "Random Forest")
    (h3 : mt ≠ "Gradient Boosting") :
    train_model B split X y mt = train_model B split X y "Linear Regression" := by
  have hsel : selectModel mt = selectModel "Linear Regression" := by
    simp [selectModel, h1, h2, h3]
  simp only [train_model, hsel]

/-- Witness for C9 at the unknown string `"SVM"`. -/
theorem train_model_unknown_model_type_fallback_witness :
    train_model (μ := Unit) ⟨fun _ _ _ => (), fun _ xs => xs.map (fun _ => 0)⟩
        (fun l => (l, l)) [[some (1 : ℚ)], [some 2]] [some 3, some 4] "SVM"
      = train_model (μ := Unit) ⟨fun _ _ _ => (), fun _ xs => xs.map (fun _ => 0)⟩
        (fun l => (l, l)) [[some (1 : ℚ)], [some 2]] [some 3, some 4]
        "Linear Regression" :=
  train_model_unknown_model_type_fallback Unit _ _ _ _ "SVM"
    (by decide) (by decide) (by decide)

/-! ### C8 : forecasting exactly N future years -/

/-- C8: for a fitted model, a non-empty historical series with maximum
year `L` and any horizon `N`, `predict_future` returns exactly `N` rows
whose years are `L+1, ..., L+N` in strictly increasing order, each
paired with the model prediction at that year. -/
theorem predict_future_spec (m : ℤ → ℚ) (years : List ℤ) (L : ℤ) (N : ℕ)
    (hmem : L ∈ years) (hub : ∀ y ∈ years, y ≤ L) :
    (predict_future (some m) years N).length = N ∧
    (predict_future (some m) years N).map Prod.fst
        = (List.range N).map (fun i : ℕ => L + 1 + (i : ℤ)) ∧
    List.Chain' (fun a b : ℤ => a < b)
        ((predict_future (some m) years N).map Prod.fst) ∧
    ∀ pr ∈ predict_future (some m) years N, pr.2 = m pr.1 := by
  have hne : years ≠ [] := by rintro rfl; simp at hmem
  have hlast : years.foldl max (years.headD 0) = L := by
    have h1 := foldl_max_eq years (years.headD 0)
    have hhd : years.headD 0 ∈ years := by
      cases years with
      | nil => exact absurd rfl hne
      | cons a t => simp
    apply le_antisymm
    · rcases foldl_max_mem years (years.headD 0) with h | h
      · rw [h]; exact hub _ hhd
      · exact hub _ h
    · exact h1.1 L hmem
  have hE : ¬ (years.isEmpty = true) := by
    cases years with
    | nil => exact absurd rfl hne
    | cons a t => simp
  have hrows : predict_future (some m) years N
      = (List.range N).map (fun i : ℕ => (L + 1 + (i : ℤ), m (L + 1 + i))) := by
    simp only [predict_future]
    rw [if_neg hE, hlast]
  have hfst : (predict_future (some m) years N).map Prod.fst
      = (List.range N).map (fun i : ℕ => L + 1 + (i : ℤ)) := by
    rw [hrows, List.map_map]
    rfl
  refine ⟨by rw [hrows]; simp, hfst, ?_, ?_⟩
  · rw [hfst]
    apply List.Pairwise.chain'
    refine List.Pairwise.map _ ?_ (List.pairwise_lt_range N)
    intro a b hab
    omega
  · intro pr hpr
    rw [hrows] at hpr
    rcases List.mem_map.1 hpr with ⟨i, _, rfl⟩
    rfl

/-- Witness for C8: five years forecast beyond a series ending at 2024. -/
theorem predict_future_spec_witness :
    (predict_future (some (fun y => (2 * y : ℚ))) [2020, 2024, 2022] 5).length = 5 ∧
    (predict_future (some (fun y => (2 * y : ℚ))) [2020, 2024, 2022] 5).map Prod.fst
        = (List.range 5).map (fun i : ℕ => 2024 + 1 + (i : ℤ)) ∧
    List.Chain' (fun a b : ℤ => a < b)
        ((predict_future (some (fun y => (2 * y : ℚ))) [2020, 2024, 2022] 5).map
          Prod.fst) ∧
    ∀ pr ∈ predict_future (some (fun y => (2 * y : ℚ))) [2020, 2024, 2022] 5,
        pr.2 = 2 * pr.1 :=
  predict_future_spec _ [2020, 2024, 2022] 2024 5 (by decide) (by decide)

/-! ### C3 : MAPE is not guarded against zero actuals -/

theorem Fl.add_isFinite (x y : Fl) :
    (Fl.add x y).isFinite = (x.isFinite && y.isFinite) := by
  cases x <;> cases y <;> rfl

theorem foldl_add_isFinite (xs : List Fl) (acc : Fl)
    (h : (xs.foldl Fl.add acc).isFinite = true) :
    acc.isFinite = true ∧ ∀ x ∈ xs, x.isFinite = true := by
  induction xs generalizing acc with
  | nil => exact ⟨h, by simp⟩
  | cons a t ih =>
    rw [List.foldl_cons] at h
    rcases ih _ h with ⟨hacc, hall⟩
    rw [Fl.add_isFinite, Bool.and_eq_true] at hacc
    refine ⟨hacc.1, ?_⟩
    intro x hx
    rcases List.mem_cons.1 hx with rfl | hx
    · exact hacc.2
    · exact hall x hx

theorem flSum_not_finite {xs : List Fl} {x : Fl} (hx : x ∈ xs)
    (hnf : x.isFinite = false) : (flSum xs).isFinite = false := by
  by_contra h
  rw [Bool.not_eq_false] at h
  have := (foldl_add_isFinite xs _ h).2 x hx
  rw [hnf] at this
  exact Bool.false_ne_true this

theorem Fl.divPos_isFinite (x : Fl) (c : ℚ) :
    (x.divPos c).isFinite = x.isFinite := by
  cases x <;> rfl

theorem Fl.mulPos_isFinite (x : Fl) (c : ℚ) :
    (x.mulPos c).isFinite = x.isFinite := by
  cases x <;> rfl

theorem Fl.abs_isFinite (x : Fl) : x.abs.isFinite = x.isFinite := by
  cases x <;> rfl

theorem fdiv_zero_not_finite (a : ℚ) : (fdiv a 0).isFinite = false := by
  unfold fdiv
  rw [if_pos rfl]
  split
  · rfl
  · split <;> rfl

/-- C3 (amended): `evaluate_model` does not guard MAPE.  Whenever some
actual value is `0` (vectors of equal length, as produced by the
train/test split), the returned MAPE is a non-finite float — `inf` or
`nan` propagated from the zero division — rather than a sentinel or an
exclusion of the zero entries. -/
theorem evaluate_model_mape_unguarded (y_true y_pred : List ℚ)
    (hlen : y_true.length = y_pred.length) (h0 : (0 : ℚ) ∈ y_true) :
    (evaluate_model y_true y_pred).mape.isFinite = false := by
  have hmape : (evaluate_model y_true y_pred).mape
      = (flMean ((y_true.zip y_pred).map
          (fun p => (fdiv (p.1 - p.2) p.1).abs))).mulPos 100 := rfl
  rw [hmape, Fl.mulPos_isFinite]
  rcases List.mem_iff_getElem.1 h0 with ⟨i, hi, hival⟩
  have hiz : i < (y_true.zip y_pred).length := by
    rw [List.length_zip, hlen, Nat.min_self]
    rw [hlen] at hi
    exact hi
  set terms := (y_true.zip y_pred).map (fun p => (fdiv (p.1 - p.2) p.1).abs)
    with hterms
  have hmem : (fdiv ((y_true.zip y_pred)[i].1 - (y_true.zip y_pred)[i].2)
      (y_true.zip y_pred)[i].1).abs ∈ terms := by
    rw [hterms]
    exact List.mem_map.2 ⟨_, List.getElem_mem hiz, rfl⟩
  have hfst : (y_true.zip y_pred)[i].1 = 0 := by
    rw [List.getElem_zip]
    exact hival
  have hnf : ((fdiv ((y_true.zip y_pred)[i].1 - (y_true.zip y_pred)[i].2)
      (y_true.zip y_pred)[i].1).abs).isFinite = false := by
    rw [hfst, Fl.abs_isFinite, fdiv_zero_not_finite]
  have hsum : (flSum terms).isFinite = false := flSum_not_finite hmem hnf
  unfold flMean
  split
  · rfl
  · rw [Fl.divPos_isFinite]
    exact hsum

/-- Witness for C3's amended theorem at a concrete pair of vectors. -/
theorem evaluate_model_mape_unguarded_witness :
    (evaluate_model [0, 2] [1, 3]).mape.isFinite = false :=
  evaluate_model_mape_unguarded [0, 2] [1, 3] (by decide) (by decide)

/-- C3 (counterexample): with actuals `[0, 1]` and predictions `[1, 1]`
the returned MAPE is `inf` — an unbounded value, not the sentinel `0`
and not a NaN-style not-computable marker, so the claimed guard does not
exist. -/
theorem evaluate_model_mape_zero_actual_cex :
    (evaluate_model [0, 1] [1, 1]).mape = Fl.inf ∧
    Fl.inf ≠ Fl.finite 0 ∧ Fl.inf ≠ Fl.nan := by
  refine ⟨?_, by decide, by decide⟩
  rfl

/-! ### C1 : adjusted R-squared is not guarded -/

/-- C1: `perform_regression` does not guard the adjusted R-squared.  On
the concrete input `X = [[0,0],[1,0]]`, `y = [0,1]` (no missing values,
`n = 2` rows, `p = 2` features, so `n - p - 1 = -1 <= 0`), any
least-squares backend that fits these two points exactly — as sklearn's
minimum-norm `LinearRegression` does — yields `R**2 = 1` and a returned
adjusted R-squared of `1.0`: a plain finite value produced by the
unguarded formula with a negative denominator, not the sentinel `0` and
not a not-computable marker. -/
theorem perform_regression_adjusted_r2_unguarded
    (fit : List (List ℚ) → List ℚ → FitResult)
    (hfit : (fit [[0, 0], [1, 0]] [0, 1]).preds = [0, 1]) :
    (perform_regression fit [[some 0, some 0], [some 1, some 0]]
        [some 0, some 1]).adjusted_r2 = Fl.finite 1 ∧
    Fl.finite (1 : ℚ) ≠ Fl.finite 0 := by
  refine ⟨?_, by decide⟩
  have hpairs : dropnaXY [[some 0, some 0], [some 1, some 0]] [some 0, some 1]
      = [([0, 0], 0), ([1, 0], 1)] := by decide
  have hres : (perform_regression fit [[some 0, some 0], [some 1, some 0]]
      [some 0, some 1]).adjusted_r2
      = adjustedR2 (r2_score [0, 1] (fit [[0, 0], [1, 0]] [0, 1]).preds) 2 2 := by
    simp only [perform_regression, hpairs]
    rfl
  rw [hres, hfit]
  decide

/-- Witness for C1: a concrete exact-fitting backend (predict the first
feature) instantiates the hypothesis. -/
theorem perform_regression_adjusted_r2_unguarded_witness :
    (perform_regression (fun X _g => ⟨[1, 0], 0, X.map (fun r => r.headD 0)⟩)
        [[some 0, some 0], [some 1, some 0]]
        [some 0, some 1]).adjusted_r2 = Fl.finite 1 ∧
    Fl.finite (1 : ℚ) ≠ Fl.finite 0 :=
  perform_regression_adjusted_r2_unguarded _ (by decide)

/-! ### C10 / C5 : filtering selects rows, year range is inclusive -/

theorem stepYear_sublist (df : DataFrame) (yr : Option (ℚ × ℚ))
    (l : List (List Cell)) : (stepYear df yr l).Sublist l := by
  unfold stepYear
  split
  · exact List.filter_sublist _
  · exact List.Sublist.refl _

theorem stepIsin_sublist (df : DataFrame) (c : String)
    (sel : Option (List String)) (l : List (List Cell)) :
    (stepIsin df c sel l).Sublist l := by
  unfold stepIsin
  split
  · split
    · exact List.Sublist.refl _
    · exact List.filter_sublist _
  · exact List.Sublist.refl _

theorem stepArea_sublist (df : DataFrame) (ar : Option String)
    (l : List (List Cell)) : (stepArea df ar l).Sublist l := by
  unfold stepArea
  split
  · split
    · exact List.Sublist.refl _
    · exact List.filter_sublist _
  · exact List.Sublist.refl _

/-- C10: `filter_data` only selects rows: its output rows form a
subsequence of the input rows (so every output row occurs in the input
with identical values in every column, and the relative order is
preserved), and the schema is unchanged.  The embedding is a pure
function of the dataframe value — it cannot mutate its argument, which
models the `df.copy()` discipline of the source. -/
theorem filter_data_row_selection_only (df : DataFrame)
    (yr : Option (ℚ × ℚ)) (st co : Option (List String))
    (ar : Option String) (ind : Option (List String)) :
    (filter_data df yr st co ar ind).rows.Sublist df.rows ∧
    (filter_data df yr st co ar ind).schema = df.schema := by
  unfold filter_data
  split
  · exact ⟨List.Sublist.refl _, rfl⟩
  · refine ⟨?_, rfl⟩
    exact ((stepIsin_sublist df "indicator" ind _).trans
      ((stepArea_sublist df ar _).trans
        ((stepIsin_sublist df "country" co _).trans
          ((stepIsin_sublist df "state" st _).trans
            (stepYear_sublist df yr df.rows)))))

theorem stepYear_eq_filter (df : DataFrame) (a b : ℚ) (j : ℕ)
    (l : List (List Cell)) (hj : df.colIdx? "year" = some j) :
    stepYear df (some (a, b)) l = l.filter (fun r =>
      match getQ r j with
      | some yv => decide (a ≤ yv) && decide (yv ≤ b)
      | none => false) := by
  unfold stepYear
  rw [hj]

/-- C5: with `year_range = (a, b)` supplied and a `year` column present
(at position `j`), every row of the filtered output carries a present
year value `y` with `a <= y <= b` — the range is inclusive on both
ends. -/
theorem filter_data_year_range_inclusive (df : DataFrame) (a b : ℚ)
    (st co : Option (List String)) (ar : Option String)
    (ind : Option (List String)) (j : ℕ)
    (hj : df.colIdx? "year" = some j) :
    ∀ r ∈ (filter_data df (some (a, b)) st co ar ind).rows,
      ∃ y, getQ r j = some y ∧ a ≤ y ∧ y ≤ b := by
  intro r hr
  have hr1 : r ∈ stepYear df (some (a, b)) df.rows := by
    unfold filter_data at hr
    split at hr
    · rename_i hemp
      have hschema : df.schema ≠ [] := by
        intro hs
        rw [DataFrame.colIdx?, hs] at hj
        exact Option.noConfusion hj
      have hrows : df.rows = [] := by
        rcases Bool.or_eq_true_iff.1 hemp with h | h
        · exact List.isEmpty_iff.1 h
        · exact absurd (List.isEmpty_iff.1 h) hschema
      rw [hrows] at hr
      exact absurd hr (List.not_mem_nil r)
    · exact ((stepIsin_sublist df "indicator" ind _).trans
        ((stepArea_sublist df ar _).trans
          ((stepIsin_sublist df "country" co _).trans
            (stepIsin_sublist df "state" st _)))).subset hr
  rw [stepYear_eq_filter df a b j df.rows hj] at hr1
  have hp := List.of_mem_filter hr1
  revert hp
  cases hq : getQ r j with
  | none => intro hp; exact absurd hp (by simp)
  | some yv =>
    intro hp
    rw [Bool.and_eq_true] at hp
    exact ⟨yv, rfl, of_decide_eq_true hp.1, of_decide_eq_true hp.2⟩

/-- Witness for C5 on a concrete dataframe, range and row. -/
theorem filter_data_year_range_inclusive_witness :
    ∃ y, getQ [Cell.qc (some 2005), Cell.sc (some "Goa")] 0 = some y ∧
      (2000 : ℚ) ≤ y ∧ y ≤ 2010 :=
  filter_data_year_range_inclusive
    ⟨[("year", DType.num), ("state", DType.obj)],
     [[Cell.qc (some 1999), Cell.sc (some "Goa")],
      [Cell.qc (some 2005), Cell.sc (some "Goa")],
      [Cell.qc (some 2011), Cell.sc (some "Bihar")],
      [Cell.qc none, Cell.sc (some "Goa")]]⟩
    2000 2010 (some ["Goa"]) none (some "All") none 0 (by decide)
    [Cell.qc (some 2005), Cell.sc (some "Goa")] (by decide)

/-! ### C4 : cleaning is not idempotent; the second pass only removes rows -/

theorem set_of_le (r : List Cell) (j : ℕ) (v : Cell) (h : r.length ≤ j) :
    r.set j v = r := by
  induction r generalizing j with
  | nil => rfl
  | cons c t ih =>
    cases j with
    | zero => exact absurd h (by simp)
    | succ k =>
      show c :: t.set k v = c :: t
      rw [ih k (by simpa using h)]

theorem getCell_set_self (r : List Cell) (j : ℕ) (v : Cell)
    (h : j < r.length) : getCell (r.set j v) j = v := by
  induction r generalizing j with
  | nil => exact absurd h (by simp)
  | cons c t ih =>
    cases j with
    | zero => rfl
    | succ k => exact ih k (by simpa using h)

theorem getCell_set_ne (r : List Cell) (k j : ℕ) (v : Cell) (h : k ≠ j) :
    getCell (r.set k v) j = getCell r j := by
  induction r generalizing k j with
  | nil => rfl
  | cons c t ih =>
    cases k with
    | zero =>
      cases j with
      | zero => exact absurd rfl h
      | succ j2 => rfl
    | succ k2 =>
      cases j with
      | zero => rfl
      | succ j2 => exact ih k2 j2 (fun he => h (by rw [he]))

theorem set_getCell_self (r : List Cell) (j : ℕ) :
    r.set j (getCell r j) = r := by
  induction r generalizing j with
  | nil => rfl
  | cons c t ih =>
    cases j with
    | zero => rfl
    | succ k =>
      show c :: t.set k (getCell (c :: t) (k + 1)) = c :: t
      have hg : getCell (c :: t) (k + 1) = getCell t k := rfl
      rw [hg, ih]

theorem dedupAux_sublist (l seen : List (List Cell)) :
    (dedupAux l seen).Sublist l := by
  induction l generalizing seen with
  | nil => exact List.Sublist.refl _
  | cons r rest ih =>
    rw [dedupAux]
    split
    · exact (ih seen).trans (List.sublist_cons_self r rest)
    · exact List.Sublist.cons₂ r (ih (r :: seen))

theorem dedupRows_sublist (l : List (List Cell)) :
    (dedupRows l).Sublist l := dedupAux_sublist l []

/-- Readiness of a numeric column for the idempotence argument: every
row either has a present (or structurally non-numeric-missing) cell at
`j`, or the whole column reads as missing. After one `clean_data` pass
every numeric column is ready, and `imputeNum` is the identity on a
ready column. -/
def numColReady (j : ℕ) (rows : List (List Cell)) : Prop :=
  (∀ r ∈ rows, j < r.length → getCell r j ≠ Cell.qc none) ∨
  (∀ r ∈ rows, getQ r j = none)

/-- Readiness of an object column: no row has a missing string cell at
`j`. -/
def objColReady (j : ℕ) (rows : List (List Cell)) : Prop :=
  ∀ r ∈ rows, getCell r j ≠ Cell.sc none

theorem numColReady_sublist {j : ℕ} {l1 l2 : List (List Cell)}
    (hs : l1.Sublist l2) (h : numColReady j l2) : numColReady j l1 := by
  rcases h with h | h
  · exact Or.inl (fun r hr => h r (hs.subset hr))
  · exact Or.inr (fun r hr => h r (hs.subset hr))

theorem objColReady_sublist {j : ℕ} {l1 l2 : List (List Cell)}
    (hs : l1.Sublist l2) (h : objColReady j l2) : objColReady j l1 :=
  fun r hr => h r (hs.subset hr)

theorem fillQCell_ne_qnone (m : ℚ) (c : Cell) : fillQCell m c ≠ Cell.qc none := by
  cases c with
  | qc o => cases o <;> simp [fillQCell]
  | sc o => simp [fillQCell]

theorem fillQCell_of_ne (m : ℚ) (c : Cell) (h : c ≠ Cell.qc none) :
    fillQCell m c = c := by
  cases c with
  | qc o => cases o with
    | none => exact absurd rfl h
    | some v => rfl
  | sc o => rfl

theorem fillSCell_ne_snone (c : Cell) : fillSCell c ≠ Cell.sc none := by
  cases c with
  | sc o => cases o <;> simp [fillSCell]
  | qc o => simp [fillSCell]

theorem getQ_none_of_getCell_ne {r : List Cell} {j : ℕ}
    (h : getCell r j = Cell.qc none) : getQ r j = none := by
  rw [getQ, h]; rfl

theorem imputeNum_id (j : ℕ) (rows : List (List Cell))
    (h : numColReady j rows) : imputeNum j rows = rows := by
  rcases h with h | h
  · simp only [imputeNum]
    split
    · split
      · rename_i mv _hmv
        have hmap : rows.map (fun r => r.set j (fillQCell mv (getCell r j)))
            = rows.map id := by
          apply List.map_congr_left
          intro r hr
          by_cases hlen : j < r.length
          · rw [fillQCell_of_ne mv _ (h r hr hlen), set_getCell_self]
            rfl
          · exact set_of_le r j _ (le_of_not_lt hlen)
        rw [hmap, List.map_id]
      · rfl
    · rfl
  · simp only [imputeNum]
    split
    · have hempty : ((rows.map (fun r => getQ r j)).filterMap id) = [] := by
        rw [List.filterMap_eq_nil_iff]
        intro o ho
        rcases List.mem_map.1 ho with ⟨r, hr, rfl⟩
        exact h r hr
      rw [show medianOpt ((rows.map (fun r => getQ r j)).filterMap id) = none
        from by rw [hempty]; rfl]
    · rfl

theorem medianOpt_eq_none {xs : List ℚ} (h : medianOpt xs = none) : xs = [] := by
  by_contra hne
  rw [medianOpt, if_neg (by simpa using hne)] at h
  exact Option.noConfusion h

theorem getCell_of_le (r : List Cell) (j : ℕ) (h : r.length ≤ j) :
    getCell r j = Cell.qc none := by
  rw [getCell, List.getD, List.get?_eq_none.2 h]
  rfl

theorem imputeNum_cells_ne (k j : ℕ) (h : k ≠ j) (rows : List (List Cell)) :
    ∀ r2 ∈ imputeNum k rows, ∃ r ∈ rows,
      getCell r2 j = getCell r j ∧ r2.length = r.length := by
  simp only [imputeNum]
  split
  · split
    · intro r2 hr2
      rcases List.mem_map.1 hr2 with ⟨r, hr, rfl⟩
      exact ⟨r, hr, getCell_set_ne r k j _ h, List.length_set r k _⟩
    · exact fun r2 hr2 => ⟨r2, hr2, rfl, rfl⟩
  · exact fun r2 hr2 => ⟨r2, hr2, rfl, rfl⟩

theorem imputeObj_cells_ne (k j : ℕ) (h : k ≠ j) (rows : List (List Cell)) :
    ∀ r2 ∈ imputeObj k rows, ∃ r ∈ rows,
      getCell r2 j = getCell r j ∧ r2.length = r.length := by
  simp only [imputeObj]
  split
  · intro r2 hr2
    rcases List.mem_map.1 hr2 with ⟨r, hr, rfl⟩
    exact ⟨r, hr, getCell_set_ne r k j _ h, List.length_set r k _⟩
  · exact fun r2 hr2 => ⟨r2, hr2, rfl, rfl⟩

theorem numColReady_of_cells {j : ℕ} {rows2 rows : List (List Cell)}
    (hmap : ∀ r2 ∈ rows2, ∃ r ∈ rows,
      getCell r2 j = getCell r j ∧ r2.length = r.length)
    (h : numColReady j rows) : numColReady j rows2 := by
  rcases h with h | h
  · left
    intro r2 hr2 hlen
    rcases hmap r2 hr2 with ⟨r, hr, hc, hl⟩
    rw [hc]
    exact h r hr (hl ▸ hlen)
  · right
    intro r2 hr2
    rcases hmap r2 hr2 with ⟨r, hr, hc, _⟩
    rw [getQ, hc]
    exact h r hr

theorem objColReady_of_cells {j : ℕ} {rows2 rows : List (List Cell)}
    (hmap : ∀ r2 ∈ rows2, ∃ r ∈ rows,
      getCell r2 j = getCell r j ∧ r2.length = r.length)
    (h : objColReady j rows) : objColReady j rows2 := by
  intro r2 hr2
  rcases hmap r2 hr2 with ⟨r, hr, hc, _⟩
  rw [hc]
  exact h r hr

theorem imputeNum_ready (j : ℕ) (rows : List (List Cell)) :
    numColReady j (imputeNum j rows) := by
  simp only [imputeNum]
  split
  · split
    · rename_i mv _hmv
      left
      intro r2 hr2 hlen
      rcases List.mem_map.1 hr2 with ⟨r, hr, rfl⟩
      rw [List.length_set] at hlen
      rw [getCell_set_self r j _ hlen]
      exact fillQCell_ne_qnone mv _
    · rename_i hmv
      right
      intro r hr
      have hempty := medianOpt_eq_none hmv
      rw [List.filterMap_eq_nil_iff] at hempty
      exact hempty _ (List.mem_map.2 ⟨r, hr, rfl⟩)
  · rename_i hany
    left
    intro r hr _hlen hcell
    apply hany
    rw [List.any_eq_true]
    refine ⟨getQ r j, List.mem_map.2 ⟨r, hr, rfl⟩, ?_⟩
    rw [getQ, hcell]
    rfl

theorem imputeObj_ready (j : ℕ) (rows : List (List Cell)) :
    objColReady j (imputeObj j rows) := by
  simp only [imputeObj]
  split
  · intro r2 hr2
    rcases List.mem_map.1 hr2 with ⟨r, hr, rfl⟩
    by_cases hlen : j < r.length
    · rw [getCell_set_self r j _ hlen]
      exact fillSCell_ne_snone _
    · rw [set_of_le r j _ (le_of_not_lt hlen),
        getCell_of_le r j (le_of_not_lt hlen)]
      intro hcontra
      exact Cell.noConfusion hcontra
  · rename_i hany
    intro r hr hcell
    apply hany
    rw [List.any_eq_true]
    refine ⟨getCell r j, List.mem_map.2 ⟨r, hr, rfl⟩, ?_⟩
    rw [hcell]
    rfl

theorem imputeObj_id (j : ℕ) (rows : List (List Cell))
    (h : objColReady j rows) : imputeObj j rows = rows := by
  simp only [imputeObj]
  split
  · rename_i hany
    exfalso
    rw [List.any_eq_true] at hany
    rcases hany with ⟨c, hc, hcb⟩
    rcases List.mem_map.1 hc with ⟨r, hr, rfl⟩
    exact h r hr (eq_of_beq hcb)
  · rfl

theorem numIdxsFrom_ge (s : List (String × DType)) (k : ℕ) :
    ∀ j ∈ numIdxsFrom s k, k ≤ j := by
  induction s generalizing k with
  | nil => simp [numIdxsFrom]
  | cons c rest ih =>
    rcases c with ⟨nm, dt⟩
    cases dt with
    | num =>
      intro j hj
      rcases List.mem_cons.1 hj with rfl | hj2
      · exact le_refl j
      · exact le_trans (Nat.le_succ k) (ih (k + 1) j hj2)
    | obj =>
      intro j hj
      exact le_trans (Nat.le_succ k) (ih (k + 1) j hj)

theorem objIdxsFrom_ge (s : List (String × DType)) (k : ℕ) :
    ∀ j ∈ objIdxsFrom s k, k ≤ j := by
  induction s generalizing k with
  | nil => simp [objIdxsFrom]
  | cons c rest ih =>
    rcases c with ⟨nm, dt⟩
    cases dt with
    | obj =>
      intro j hj
      rcases List.mem_cons.1 hj with rfl | hj2
      · exact le_refl j
      · exact le_trans (Nat.le_succ k) (ih (k + 1) j hj2)
    | num =>
      intro j hj
      exact le_trans (Nat.le_succ k) (ih (k + 1) j hj)

theorem numIdxsFrom_pairwise (s : List (String × DType)) (k : ℕ) :
    (numIdxsFrom s k).Pairwise (fun a b => a < b) := by
  induction s generalizing k with
  | nil => simp [numIdxsFrom]
  | cons c rest ih =>
    rcases c with ⟨nm, dt⟩
    cases dt with
    | num =>
      rw [numIdxsFrom, List.pairwise_cons]
      exact ⟨fun j hj => lt_of_lt_of_le (Nat.lt_succ_self k)
        (numIdxsFrom_ge rest (k + 1) j hj), ih (k + 1)⟩
    | obj => exact ih (k + 1)

theorem objIdxsFrom_pairwise (s : List (String × DType)) (k : ℕ) :
    (objIdxsFrom s k).Pairwise (fun a b => a < b) := by
  induction s generalizing k with
  | nil => simp [objIdxsFrom]
  | cons c rest ih =>
    rcases c with ⟨nm, dt⟩
    cases dt with
    | obj =>
      rw [objIdxsFrom, List.pairwise_cons]
      exact ⟨fun j hj => lt_of_lt_of_le (Nat.lt_succ_self k)
        (objIdxsFrom_ge rest (k + 1) j hj), ih (k + 1)⟩
    | num => exact ih (k + 1)

theorem num_obj_disjoint (s : List (String × DType)) (k : ℕ) (j : ℕ)
    (hn : j ∈ numIdxsFrom s k) (ho : j ∈ objIdxsFrom s k) : False := by
  induction s generalizing k with
  | nil => simp [numIdxsFrom] at hn
  | cons c rest ih =>
    rcases c with ⟨nm, dt⟩
    cases dt with
    | num =>
      rcases List.mem_cons.1 hn with rfl | hn2
      · exact absurd (objIdxsFrom_ge rest (j + 1) j ho) (by omega)
      · exact ih (k + 1) hn2 ho
    | obj =>
      rcases List.mem_cons.1 ho with rfl | ho2
      · exact absurd (numIdxsFrom_ge rest (j + 1) j hn) (by omega)
      · exact ih (k + 1) hn ho2

theorem foldNum_preserve_num (t : List ℕ) (j : ℕ)
    (rows : List (List Cell)) (hne : ∀ k ∈ t, k ≠ j)
    (h : numColReady j rows) :
    numColReady j (t.foldl (fun rs k => imputeNum k rs) rows) := by
  induction t generalizing rows with
  | nil => exact h
  | cons k t2 ih =>
    rw [List.foldl_cons]
    exact ih _ (fun k2 hk2 => hne k2 (List.mem_cons_of_mem k hk2))
      (numColReady_of_cells
        (imputeNum_cells_ne k j (hne k (List.mem_cons_self k t2)) rows) h)

theorem foldObj_preserve_num (t : List ℕ) (j : ℕ)
    (rows : List (List Cell)) (hne : ∀ k ∈ t, k ≠ j)
    (h : numColReady j rows) :
    numColReady j (t.foldl (fun rs k => imputeObj k rs) rows) := by
  induction t generalizing rows with
  | nil => exact h
  | cons k t2 ih =>
    rw [List.foldl_cons]
    exact ih _ (fun k2 hk2 => hne k2 (List.mem_cons_of_mem k hk2))
      (numColReady_of_cells
        (imputeObj_cells_ne k j (hne k (List.mem_cons_self k t2)) rows) h)

theorem foldObj_preserve_obj (t : List ℕ) (j : ℕ)
    (rows : List (List Cell)) (hne : ∀ k ∈ t, k ≠ j)
    (h : objColReady j rows) :
    objColReady j (t.foldl (fun rs k => imputeObj k rs) rows) := by
  induction t generalizing rows with
  | nil => exact h
  | cons k t2 ih =>
    rw [List.foldl_cons]
    exact ih _ (fun k2 hk2 => hne k2 (List.mem_cons_of_mem k hk2))
      (objColReady_of_cells
        (imputeObj_cells_ne k j (hne k (List.mem_cons_self k t2)) rows) h)

theorem foldNum_ready (js : List ℕ) (rows : List (List Cell))
    (hpw : js.Pairwise (fun a b => a < b)) :
    ∀ j ∈ js, numColReady j (js.foldl (fun rs k => imputeNum k rs) rows) := by
  induction js generalizing rows with
  | nil => simp
  | cons k t ih =>
    intro j hj
    rw [List.foldl_cons]
    rcases List.mem_cons.1 hj with rfl | hj2
    · refine foldNum_preserve_num t j (imputeNum j rows) ?_ (imputeNum_ready j rows)
      intro k2 hk2
      exact ne_of_gt ((List.pairwise_cons.1 hpw).1 k2 hk2)
    · exact ih (imputeNum k rows) (List.pairwise_cons.1 hpw).2 j hj2

theorem foldObj_ready (js : List ℕ) (rows : List (List Cell))
    (hpw : js.Pairwise (fun a b => a < b)) :
    ∀ j ∈ js, objColReady j (js.foldl (fun rs k => imputeObj k rs) rows) := by
  induction js generalizing rows with
  | nil => simp
  | cons k t ih =>
    intro j hj
    rw [List.foldl_cons]
    rcases List.mem_cons.1 hj with rfl | hj2
    · refine foldObj_preserve_obj t j (imputeObj j rows) ?_ (imputeObj_ready j rows)
      intro k2 hk2
      exact ne_of_gt ((List.pairwise_cons.1 hpw).1 k2 hk2)
    · exact ih (imputeObj k rows) (List.pairwise_cons.1 hpw).2 j hj2

theorem foldNum_id_of_ready (js : List ℕ) (rows : List (List Cell))
    (h : ∀ j ∈ js, numColReady j rows) :
    js.foldl (fun rs k => imputeNum k rs) rows = rows := by
  induction js with
  | nil => rfl
  | cons k t ih =>
    rw [List.foldl_cons, imputeNum_id k rows (h k (List.mem_cons_self k t))]
    exact ih (fun j hj => h j (List.mem_cons_of_mem k hj))

theorem foldObj_id_of_ready (js : List ℕ) (rows : List (List Cell))
    (h : ∀ j ∈ js, objColReady j rows) :
    js.foldl (fun rs k => imputeObj k rs) rows = rows := by
  induction js with
  | nil => rfl
  | cons k t ih =>
    rw [List.foldl_cons, imputeObj_id k rows (h k (List.mem_cons_self k t))]
    exact ih (fun j hj => h j (List.mem_cons_of_mem k hj))

theorem outlierStep_sublist (df : DataFrame) (rows : List (List Cell)) :
    (outlierStep df rows).Sublist rows := by
  unfold outlierStep
  split
  · exact List.Sublist.refl _
  · dsimp only
    split
    · exact List.filter_sublist _
    · exact List.filter_sublist _

theorem clean_data_of_empty (df : DataFrame) (h : df.isEmpty = true) :
    clean_data df = df := by
  simp only [clean_data]
  rw [if_pos h]

theorem clean_data_parts (df : DataFrame) (h : df.isEmpty = false) :
    (clean_data df).rows
      = outlierStep df (df.objIdxs.foldl (fun rs j => imputeObj j rs)
          (df.numIdxs.foldl (fun rs j => imputeNum j rs) (dedupRows df.rows)))
    ∧ (clean_data df).schema = df.schema := by
  simp only [clean_data]
  rw [if_neg (by rw [h]; exact Bool.false_ne_true)]
  exact ⟨rfl, rfl⟩

/-- C4 (amended): the second application of `clean_data` never adds or
rewrites rows — its rows form a subsequence of the rows of the first
application — though it may remove additional rows (median imputation
can create duplicates that the second pass deduplicates, and outlier
bounds recomputed on the reduced data can exclude further rows). -/
theorem clean_data_second_pass_sublist (df : DataFrame) :
    (clean_data (clean_data df)).rows.Sublist (clean_data df).rows := by
  cases h1 : df.isEmpty with
  | true =>
    simp only [clean_data_of_empty df h1]
    exact List.Sublist.refl _
  | false =>
    have hparts := clean_data_parts df h1
    have hnum : ∀ j ∈ df.numIdxs, numColReady j (clean_data df).rows := by
      intro j hj
      rw [hparts.1]
      refine numColReady_sublist (outlierStep_sublist df _) ?_
      refine foldObj_preserve_num df.objIdxs j _ ?_ ?_
      · intro k hk he
        exact num_obj_disjoint df.schema 0 k (he ▸ hj) hk
      · exact foldNum_ready df.numIdxs _ (numIdxsFrom_pairwise df.schema 0) j hj
    have hobj : ∀ j ∈ df.objIdxs, objColReady j (clean_data df).rows := by
      intro j hj
      rw [hparts.1]
      refine objColReady_sublist (outlierStep_sublist df _) ?_
      exact foldObj_ready df.objIdxs _ (objIdxsFrom_pairwise df.schema 0) j hj
    cases h2 : (clean_data df).isEmpty with
    | true =>
      simp only [clean_data_of_empty (clean_data df) h2]
      exact List.Sublist.refl _
    | false =>
      have h2parts := clean_data_parts (clean_data df) h2
      rw [h2parts.1]
      have hidx_num : (clean_data df).numIdxs = df.numIdxs := by
        rw [DataFrame.numIdxs, DataFrame.numIdxs, hparts.2]
      have hidx_obj : (clean_data df).objIdxs = df.objIdxs := by
        rw [DataFrame.objIdxs, DataFrame.objIdxs, hparts.2]
      rw [hidx_num, hidx_obj]
      have hdd : (dedupRows (clean_data df).rows).Sublist (clean_data df).rows :=
        dedupRows_sublist _
      rw [foldNum_id_of_ready df.numIdxs _
        (fun j hj => numColReady_sublist hdd (hnum j hj))]
      rw [foldObj_id_of_ready df.objIdxs _
        (fun j hj => objColReady_sublist hdd (hobj j hj))]
      exact (outlierStep_sublist (clean_data df) _).trans hdd

/-- C4 (counterexample): on the one-column dataframe with values
`[1, NaN]` the first pass imputes the median `1`, creating a duplicate
row, and the second pass removes it: `clean_data` is not idempotent. -/
theorem clean_data_not_idempotent_cex :
    clean_data (clean_data
        ⟨[("value", DType.num)], [[Cell.qc (some 1)], [Cell.qc none]]⟩)
      ≠ clean_data
        ⟨[("value", DType.num)], [[Cell.qc (some 1)], [Cell.qc none]]⟩ := by
  decide

/-! ### C7 : correlation matrix -/

theorem sum_nonneg_map {α : Type} (l : List α) (f : α → ℚ)
    (h : ∀ a ∈ l, 0 ≤ f a) : 0 ≤ (l.map f).sum := by
  induction l with
  | nil => simp
  | cons a t ih =>
    rw [List.map_cons, List.sum_cons]
    have h1 := h a (List.mem_cons_self a t)
    have h2 := ih (fun x hx => h x (List.mem_cons_of_mem a hx))
    linarith

theorem list_cauchy_schwarz (l : List (ℚ × ℚ)) :
    ((l.map (fun p => p.1 * p.2)).sum) ^ 2
      ≤ ((l.map (fun p => p.1 * p.1)).sum) * ((l.map (fun p => p.2 * p.2)).sum) := by
  induction l with
  | nil => simp
  | cons p l ih =>
    rcases p with ⟨a, b⟩
    simp only [List.map_cons, List.sum_cons]
    have hA : 0 ≤ (l.map (fun p => p.1 * p.1)).sum :=
      sum_nonneg_map l _ (fun q _ => mul_self_nonneg q.1)
    have hB : 0 ≤ (l.map (fun p => p.2 * p.2)).sum :=
      sum_nonneg_map l _ (fun q _ => mul_self_nonneg q.2)
    set S := (l.map (fun p => p.1 * p.2)).sum
    set A := (l.map (fun p => p.1 * p.1)).sum
    set B := (l.map (fun p => p.2 * p.2)).sum
    rcases eq_or_lt_of_le hA with hA0 | hA0
    · have hS : S = 0 := by
        have h1 : S ^ 2 ≤ 0 := by
          calc S ^ 2 ≤ A * B := ih
          _ = 0 := by rw [← hA0, zero_mul]
        have h2 := sq_nonneg S
        exact pow_eq_zero_iff (by norm_num) |>.1 (le_antisymm h1 h2)
      rw [hS, ← hA0]
      nlinarith [mul_nonneg (mul_self_nonneg a) hB]
    · have hABS : 0 ≤ A * B - S ^ 2 := by linarith [ih]
      nlinarith [sq_nonneg (A * b - a * S), mul_nonneg hABS (mul_self_nonneg a),
        mul_nonneg hABS hA, hA0]

theorem pairObs_swap (a b : List (Option ℚ)) :
    pairObs b a = (pairObs a b).map Prod.swap := by
  rw [pairObs, pairObs, ← List.zip_swap a b, List.filterMap_map,
    List.map_filterMap]
  congr 1
  funext p
  rcases p with ⟨op, oq⟩
  cases op <;> cases oq <;> rfl

theorem cSum_map_swap (pts : List (ℚ × ℚ)) :
    cSum (pts.map Prod.swap) = cSum pts := by
  simp only [cSum, List.map_map, Function.comp_def, Prod.fst_swap,
    Prod.snd_swap]
  exact congrArg List.sum (List.map_congr_left fun p _ => mul_comm _ _)

theorem cXX_map_swap (pts : List (ℚ × ℚ)) :
    cXX (pts.map Prod.swap) = cYY pts := by
  rw [cXX, cYY, List.map_map]
  rfl

theorem cYY_map_swap (pts : List (ℚ × ℚ)) :
    cYY (pts.map Prod.swap) = cXX pts := by
  rw [cXX, cYY, List.map_map]
  rfl

theorem corrNum_symm (a b : List (Option ℚ)) : corrNum b a = corrNum a b := by
  rw [corrNum, corrNum, pairObs_swap a b, cSum_map_swap]

theorem corrDenSq_symm (a b : List (Option ℚ)) :
    corrDenSq b a = corrDenSq a b := by
  rw [corrDenSq, corrDenSq, pairObs_swap a b, cXX_map_swap, cYY_map_swap,
    mul_comm]

theorem pairObs_self (a : List (Option ℚ)) :
    pairObs a a = (a.filterMap id).map (fun x => (x, x)) := by
  induction a with
  | nil => rfl
  | cons o t ih =>
    cases o with
    | none =>
      show pairObs t t = _
      rw [ih]
      rfl
    | some x =>
      show (x, x) :: pairObs t t = _
      rw [ih]
      rfl

theorem corrNum_self_eq_cXX (a : List (Option ℚ)) :
    corrNum a a = cXX (pairObs a a) := by
  rw [corrNum, cXX, pairObs_self, List.map_map]
  rfl

theorem corrNum_self_eq_cYY (a : List (Option ℚ)) :
    corrNum a a = cYY (pairObs a a) := by
  rw [corrNum, cYY, pairObs_self, List.map_map]
  rfl

theorem cSum_eq_centered (pts : List (ℚ × ℚ)) :
    cSum pts = ((pts.map (fun p => (p.1 - meanQ (pts.map Prod.fst),
        p.2 - meanQ (pts.map Prod.snd)))).map (fun p => p.1 * p.2)).sum := by
  rw [List.map_map]
  rfl

theorem cXX_eq_centered (pts : List (ℚ × ℚ)) :
    cXX pts = ((pts.map (fun p => (p.1 - meanQ (pts.map Prod.fst),
        p.2 - meanQ (pts.map Prod.snd)))).map (fun p => p.1 * p.1)).sum := by
  simp only [cXX, cSum, List.map_map, Function.comp_def]

theorem cYY_eq_centered (pts : List (ℚ × ℚ)) :
    cYY pts = ((pts.map (fun p => (p.1 - meanQ (pts.map Prod.fst),
        p.2 - meanQ (pts.map Prod.snd)))).map (fun p => p.2 * p.2)).sum := by
  simp only [cYY, cSum, List.map_map, Function.comp_def]

theorem corrNum_sq_le (a b : List (Option ℚ)) :
    (corrNum a b) ^ 2 ≤ corrDenSq a b := by
  rw [corrNum, corrDenSq, cSum_eq_centered, cXX_eq_centered, cYY_eq_centered]
  exact list_cauchy_schwarz _

theorem getD_map_lt {α β : Type} (f : α → β) (l : List α) (d : β) (i : ℕ)
    (hi : i < l.length) : (l.map f).getD i d = f l[i] := by
  rw [List.getD_eq_getElem _ _ (by simpa using hi), List.getElem_map]

theorem corrAt_eq (nc : List (String × List (Option ℚ))) (i j : ℕ)
    (hi : i < nc.length) (hj : j < nc.length) :
    (CorrMatrix.mk (nc.map Prod.fst)
      (nc.map (fun a => nc.map (fun b =>
        (corrNum a.2 b.2, corrDenSq a.2 b.2))))).at i j
      = (corrNum nc[i].2 nc[j].2, corrDenSq nc[i].2 nc[j].2) := by
  rw [CorrMatrix.at]
  rw [getD_map_lt _ nc [] i hi]
  rw [getD_map_lt _ nc (0, 0) j hj]

theorem numericColsFrom_names (df : DataFrame) (s : List (String × DType))
    (k : ℕ) :
    (numericColsFrom df s k).map Prod.fst
      = (s.filter (fun c => c.2 == DType.num)).map Prod.fst := by
  induction s generalizing k with
  | nil => rfl
  | cons c rest ih =>
    rcases c with ⟨nm, dt⟩
    cases dt with
    | num => simp [numericColsFrom, List.filter_cons, ih]
    | obj => simp [numericColsFrom, List.filter_cons, ih]

theorem numericCols_names (df : DataFrame) :
    (numericCols df).map Prod.fst = numericNames df :=
  numericColsFrom_names df df.schema 0

theorem calculate_correlation_eq (df : DataFrame) (h1 : df.isEmpty = false)
    (h2 : numericCols df ≠ []) :
    calculate_correlation df = ⟨(numericCols df).map Prod.fst,
      (numericCols df).map (fun a => (numericCols df).map (fun b =>
        (corrNum a.2 b.2, corrDenSq a.2 b.2)))⟩ := by
  simp only [calculate_correlation]
  rw [if_neg (by simp only [h1]; exact Bool.false_ne_true)]
  rw [if_neg (by simp only [List.isEmpty_iff]; exact h2)]

theorem nonDegenerate_spec {df : DataFrame} (h : nonDegenerate df = true) :
    ∀ a ∈ numericCols df, ∀ b ∈ numericCols df,
      0 < cXX (pairObs a.2 b.2) ∧ 0 < cYY (pairObs a.2 b.2) := by
  intro a ha b hb
  rw [nonDegenerate, List.all_eq_true] at h
  have h2 := h a ha
  rw [List.all_eq_true] at h2
  have h3 := h2 b hb
  rw [Bool.and_eq_true] at h3
  exact ⟨of_decide_eq_true h3.1, of_decide_eq_true h3.2⟩

/-- C7: the empty dataframe and the dataframe without numeric columns
give the empty matrix; a non-empty, non-degenerate dataframe with at
least one numeric column gives a square matrix indexed by exactly the
numeric column names that is symmetric, has the entry representing
`1.0` on the diagonal, and whose every entry `(num, denSq)` satisfies
`num^2 <= denSq` with `denSq > 0 `, i.e. the Pearson value
`num / sqrt denSq` is well defined and lies in `[-1, 1]`. -/
theorem calculate_correlation_spec :
    (∀ df : DataFrame, df.isEmpty = true →
      calculate_correlation df = ⟨[], []⟩) ∧
    (∀ df : DataFrame, numericCols df = [] →
      calculate_correlation df = ⟨[], []⟩) ∧
    (∀ df : DataFrame, df.isEmpty = false → numericCols df ≠ [] →
      nonDegenerate df = true →
      (calculate_correlation df).names = numericNames df ∧
      (calculate_correlation df).entries.length
          = (calculate_correlation df).names.length ∧
      (∀ row ∈ (calculate_correlation df).entries,
        row.length = (calculate_correlation df).names.length) ∧
      (∀ i j, i < (calculate_correlation df).names.length →
        j < (calculate_correlation df).names.length →
        (calculate_correlation df).at i j = (calculate_correlation df).at j i) ∧
      (∀ i, i < (calculate_correlation df).names.length →
        entryIsOne ((calculate_correlation df).at i i)) ∧
      (∀ i j, i < (calculate_correlation df).names.length →
        j < (calculate_correlation df).names.length →
        ((calculate_correlation df).at i j).1 ^ 2
            ≤ ((calculate_correlation df).at i j).2 ∧
        0 < ((calculate_correlation df).at i j).2)) := by
  refine ⟨?_, ?_, ?_⟩
  · intro df h1
    simp only [calculate_correlation]
    rw [if_pos h1]
  · intro df h2
    by_cases h1 : df.isEmpty = true
    · simp only [calculate_correlation]
      rw [if_pos h1]
    · simp only [calculate_correlation]
      rw [if_neg h1, if_pos (by rw [h2]; rfl)]
  · intro df h1 h2 h3
    have hM := calculate_correlation_eq df h1 h2
    have hNlen : (calculate_correlation df).names.length
        = (numericCols df).length := by rw [hM]; simp
    refine ⟨?_, ?_, ?_, ?_, ?_, ?_⟩
    · rw [hM]
      exact numericCols_names df
    · rw [hM]
      simp
    · rw [hM]
      intro row hrow
      rcases List.mem_map.1 hrow with ⟨a, _, rfl⟩
      simp
    · intro i j hi hj
      rw [hNlen] at hi hj
      rw [hM, corrAt_eq _ i j hi hj, corrAt_eq _ j i hj hi,
        corrNum_symm (numericCols df)[i].2 (numericCols df)[j].2,
        corrDenSq_symm (numericCols df)[i].2 (numericCols df)[j].2]
    · intro i hi
      rw [hNlen] at hi
      rw [hM, corrAt_eq _ i i hi hi]
      have hmem : (numericCols df)[i] ∈ numericCols df :=
        List.getElem_mem hi
      have hd := nonDegenerate_spec h3 _ hmem _ hmem
      refine ⟨?_, ?_⟩
      · rw [corrNum_self_eq_cXX]
        exact hd.1
      · rw [pow_two, corrDenSq]
        nth_rewrite 2 [corrNum_self_eq_cYY]
        rw [corrNum_self_eq_cXX]
    · intro i j hi hj
      rw [hNlen] at hi hj
      rw [hM, corrAt_eq _ i j hi hj]
      have hd := nonDegenerate_spec h3 _ (List.getElem_mem hi)
        _ (List.getElem_mem hj)
      exact ⟨corrNum_sq_le _ _, mul_pos hd.1 hd.2⟩

/-- Witness for C7: the diagonal entry of the correlation matrix of a
concrete non-degenerate dataframe represents `1.0`. -/
theorem calculate_correlation_spec_witness :
    entryIsOne ((calculate_correlation
      ⟨[("a", DType.num), ("n", DType.obj), ("b", DType.num)],
       [[Cell.qc (some 1), Cell.sc (some "x"), Cell.qc (some 2)],
        [Cell.qc (some 2), Cell.sc (some "y"), Cell.qc (some 4)],
        [Cell.qc (some 3), Cell.sc none, Cell.qc (some 5)]]⟩).at 0 0) :=
  ((calculate_correlation_spec.2.2
      ⟨[("a", DType.num), ("n", DType.obj), ("b", DType.num)],
       [[Cell.qc (some 1), Cell.sc (some "x"), Cell.qc (some 2)],
        [Cell.qc (some 2), Cell.sc (some "y"), Cell.qc (some 4)],
        [Cell.qc (some 3), Cell.sc none, Cell.qc (some 5)]]⟩
      rfl (by decide) (by decide)).2.2.2.2.1)
    0 (by decide)

end Pov
